import Mathlib

/-!
Verification development for the measure repository: a set of independent
price-monitoring analysis scripts.  Each Python script is embedded shallowly:
pure helpers become Lean functions on lists and rationals, the per-script
pipeline becomes a function from the fetched rows to an outcome record
(exit code, files written, messages printed), and the database/statistics
libraries (declared out of scope by the repository description) appear as
abstract parameters.  Floating-point values are modelled as Option Rat,
with none standing for Python None as well as IEEE NaN and infinities; the
scripts observe non-finite values only through a sanitiser that maps all of
them to None, so the collapse is faithful for every property stated here.
-/

namespace Measure

/-! ## Characters and sanitize_filename

Embeds sanitize_filename, identical in histogram.py, plot_cenovy_odstup_b.py,
scatterplot_nP_iB.py, souladnost_cenovych_odstupu.py, plot_brand_index_sladeni.py,
regression_iP_Np.py and scatterplot_sladenost_cenovy_odstup_b.py:

    s = re.sub(r"[\\/:*?\"<>|]+", " ", s)
    return re.sub(r"\s+", " ", s).strip()
-/

/-- The filesystem-unsafe character class of the first regular expression. -/
def badChar (c : Char) : Bool :=
  c == '\\' || c == '/' || c == ':' || c == '*' || c == '?' ||
  c == '"' || c == '<' || c == '>' || c == '|'

/-- Python whitespace, as matched by the regex class for blanks and by
String.strip: ASCII whitespace, the C1 separators, and the Unicode space
separators. -/
def wsChar (c : Char) : Bool :=
  c == ' ' || c == '\t' || c == '\n' || c == '\r' || c == '\x0b' || c == '\x0c' ||
  c == '\x1c' || c == '\x1d' || c == '\x1e' || c == '\x1f' || c == '\u0085' ||
  c == '\u00a0' || c == '\u1680' || c == '\u2000' || c == '\u2001' ||
  c == '\u2002' || c == '\u2003' || c == '\u2004' || c == '\u2005' ||
  c == '\u2006' || c == '\u2007' || c == '\u2008' || c == '\u2009' ||
  c == '\u200a' || c == '\u2028' || c == '\u2029' || c == '\u202f' ||
  c == '\u205f' || c == '\u3000'

/-- re.sub with a one-character-class-plus pattern: every maximal run of
characters satisfying p is replaced by the single character r.  The boolean
argument records whether the previous character belonged to the current run. -/
def subRuns (p : Char → Bool) (r : Char) : Bool → List Char → List Char
  | _, [] => []
  | inRun, c :: cs =>
    if p c then
      if inRun then subRuns p r true cs
      else r :: subRuns p r true cs
    else c :: subRuns p r false cs

/-- str.strip(): remove leading and trailing whitespace. -/
def stripWs (l : List Char) : List Char :=
  ((l.dropWhile wsChar).reverse.dropWhile wsChar).reverse

/-- sanitize_filename from the scripts: collapse unsafe-character runs to a
space, collapse whitespace runs to a space, strip. -/
def sanitize_filename (l : List Char) : List Char :=
  stripWs (subRuns wsChar ' ' false (subRuns badChar ' ' false l))

/-- The per-product output file name used by every chart script:
sanitize_filename(str(product_id)) + ".png". -/
def fnameFor (pid : List Char) : List Char :=
  sanitize_filename pid ++ ".png".toList

/-- Written from the specification text, for the refinement comparison of C7:
a single pass that replaces every maximal run of filesystem-unsafe or
whitespace characters by one space, then trims the ends. -/
def collapseUnsafeRuns (l : List Char) : List Char :=
  stripWs (subRuns (fun c => badChar c || wsChar c) ' ' false l)

/-! ## Numeric model

Option Rat models a Python/NumPy floating value: some q is a finite value,
none stands for None as well as NaN and the infinities.  The scripts report
numbers only through the sanitiser below, which maps every non-finite value
to None, so identifying the non-finite values loses nothing observable. -/

/-- Floating division: a zero divisor yields a non-finite value. -/
def pdiv : Option ℚ → Option ℚ → Option ℚ
  | some a, some b => if b = 0 then none else some (a / b)
  | _, _ => none

/-- Floating subtraction; non-finite operands propagate. -/
def psub : Option ℚ → Option ℚ → Option ℚ
  | some a, some b => some (a - b)
  | _, _ => none

/-- Round half to even, as Python round does on an exactly represented
value. -/
def rhe (x : ℚ) : ℤ :=
  if x - ⌊x⌋ < 1 / 2 then ⌊x⌋
  else if x - ⌊x⌋ > 1 / 2 then ⌊x⌋ + 1
  else if Even ⌊x⌋ then ⌊x⌋ else ⌊x⌋ + 1

/-- round(q, d) of Python. -/
def roundTo (d : ℕ) (q : ℚ) : ℚ := (rhe (q * 10 ^ d) : ℚ) / 10 ^ d

/-- The sanitiser n defined inside linear_regression of regression_iP_Np.py:
None, NaN and infinities become None, finite values are rounded to 4
decimal places.  In this model the first three cases are the none case. -/
def n (x : Option ℚ) : Option ℚ := x.map (roundTo 4)

/-- round2 of histogram.py: round to cents, anything unconvertible (the
none case here) stays missing. -/
def round2 (x : Option ℚ) : Option ℚ := x.map (roundTo 2)

/-! ## The external numeric library

The repository description declares the statistics libraries out of scope,
so np.log, sqrt and the t-distribution tail inside statsmodels appear as
abstract parameters; the OLS fit itself is embedded through its defining
normal-equations contract on exact rationals. -/

structure NumLib where
  logFn : ℚ → ℚ
  sqrtFn : ℚ → ℚ
  tsf : ℚ → ℕ → ℚ

/-- np.log on the float model: non-positive arguments give a non-finite
result (-inf or nan), log 1 = 0 exactly, other positive arguments are given
by the library parameter. -/
def plog (m : NumLib) : Option ℚ → Option ℚ
  | none => none
  | some q => if q ≤ 0 then none else if q = 1 then some 0 else some (m.logFn q)

/-- A concrete instantiation of the library parameters, used for concrete
evaluations; the theorems quantify over every instantiation. -/
def mlib0 : NumLib := ⟨fun q => q, fun q => q, fun _ _ => 0⟩

/-! ## Ordinary least squares (the contract of sm.OLS(y, add_constant(x)).fit()) -/

def mean (l : List ℚ) : ℚ := l.sum / l.length

def sxx (xs : List ℚ) : ℚ := (xs.map (fun a => (a - mean xs) ^ 2)).sum

def sxy (xs ys : List ℚ) : ℚ :=
  (List.zipWith (fun a b => (a - mean xs) * (b - mean ys)) xs ys).sum

/-- The fitted slope params[1]: the normal-equations solution. -/
def olsSlope (xs ys : List ℚ) : Option ℚ :=
  if sxx xs = 0 then none else some (sxy xs ys / sxx xs)

/-- Residual sum of squares of the fitted line. -/
def olsSsr (xs ys : List ℚ) : Option ℚ :=
  (olsSlope xs ys).map (fun b =>
    (List.zipWith (fun xi yi => (yi - ((mean ys - b * mean xs) + b * xi)) ^ 2)
      xs ys).sum)

/-- Centered total sum of squares. -/
def olsSst (ys : List ℚ) : ℚ := (ys.map (fun y => (y - mean ys) ^ 2)).sum

/-- rsquared: 1 - ssr / centered tss; a zero tss gives NaN. -/
def olsRsquared (xs ys : List ℚ) : Option ℚ :=
  psub (some 1) (pdiv (olsSsr xs ys) (some (olsSst ys)))

/-- scale: ssr over the residual degrees of freedom len - 2. -/
def olsScale (xs ys : List ℚ) : Option ℚ :=
  pdiv (olsSsr xs ys) (some ((ys.length : ℚ) - 2))

/-- bse[1]: the square root of scale / sxx; sqrt of 0 is exactly 0. -/
def olsBse (m : NumLib) (xs ys : List ℚ) : Option ℚ :=
  match pdiv (olsScale xs ys) (some (sxx xs)) with
  | none => none
  | some q => if q < 0 then none else if q = 0 then some 0 else some (m.sqrtFn q)

/-- tvalues[1] = params[1] / bse[1]. -/
def olsTval (m : NumLib) (xs ys : List ℚ) : Option ℚ :=
  pdiv (olsSlope xs ys) (olsBse m xs ys)

/-- pvalues[1]: the two-sided tail of the t distribution, an external
routine; non-finite t statistics give a non-finite p-value. -/
def olsPval (m : NumLib) (xs ys : List ℚ) : Option ℚ :=
  (olsTval m xs ys).map (fun t => m.tsf t ys.length)

/-- The per-product result record appended by linear_regression of
regression_iP_Np.py. -/
structure RegRecord where
  id : List Char
  beta_Np : Option ℚ
  beta_SE : Option ℚ
  p_value : Option ℚ
  R_squared : Option ℚ
  N : ℕ
deriving DecidableEq

def allSome (l : List (Option ℚ)) : Bool := l.all (fun x => x.isSome)

/-- The statistics reported for one group: each raw statistic passed through
the sanitiser n.  A non-finite value anywhere in a column makes every OLS
output non-finite, hence the gate on the columns. -/
def olsRecOf (m : NumLib) (pid : List Char) (k : ℕ)
    (xs ys : List (Option ℚ)) : RegRecord :=
  if allSome xs && allSome ys then
    let x := xs.reduceOption
    let y := ys.reduceOption
    { id := pid
      beta_Np := n (olsSlope x y)
      beta_SE := n (olsBse m x y)
      p_value := n (olsPval m x y)
      R_squared := n (olsRsquared x y)
      N := k }
  else
    { id := pid, beta_Np := none, beta_SE := none, p_value := none
      R_squared := none, N := k }

/-! ## Rows, groups and the per-script pipelines -/

/-- One fetched row; each script uses the columns its query selects.  All
numeric columns have been through pd.to_numeric(errors="coerce"), so a cell
is an Option Rat. -/
structure PriceRow where
  iB : Option ℚ := none
  seller_count : Option ℚ := none
  on_par : Option ℚ := none
  min_price : Option ℚ := none
  mode_price : Option ℚ := none
  dA : Option ℚ := none
  dB : Option ℚ := none
  price : Option ℚ := none
deriving DecidableEq

/-- One product group of df.groupby(("product_id", "product_name")); the
group list stands for the grouped frame, each group nonempty by
construction of groupby. -/
structure ProductGroup where
  pid : List Char
  pname : List Char
  rows : List PriceRow
deriving DecidableEq

/-- Series.nunique: the number of distinct non-missing values. -/
def nuniqueQ (l : List (Option ℚ)) : ℕ := l.reduceOption.dedup.length

/-- The body of linear_regression in regression_iP_Np.py for one group:
skip the group when it is empty or the seller count has fewer than two
distinct values, otherwise regress log iB on log seller_count and report
the sanitised statistics. -/
def regressionGroupResult (m : NumLib) (g : ProductGroup) : Option RegRecord :=
  if g.rows.isEmpty ∨ nuniqueQ (g.rows.map (fun r => r.seller_count)) < 2 then
    none
  else
    some (olsRecOf m g.pid g.rows.length
      (g.rows.map (fun r => plog m r.seller_count))
      (g.rows.map (fun r => plog m r.iB)))

/-- linear_regression of regression_iP_Np.py over the grouped frame. -/
def linear_regression (m : NumLib) (gs : List ProductGroup) : List RegRecord :=
  gs.filterMap (regressionGroupResult m)

/-- os.path.join for a nonempty left part without a trailing separator and a
relative right part, the only shapes the scripts produce. -/
def pathJoin (a b : List Char) : List Char := a ++ '/' :: b

/-- The min/mode column computed in fetch_dataframe of
scatterplot_sladenost_cenovy_odstup_b.py: min_price / mode_price when both
are present and mode_price is nonzero, otherwise None. -/
def minModeFrac (minP modeP : Option ℚ) : Option ℚ :=
  match minP, modeP with
  | some a, some b => if b ≠ 0 then some (a / b) else none
  | _, _ => none

/-- The outcome of one script run: process exit code, directories created,
files written, messages printed. -/
structure Outcome where
  exitCode : ℕ
  dirsMade : List (List Char)
  files : List (List Char)
  msgs : List String
deriving DecidableEq

def msgNoData : String := "Žádná data k vykreslení."

def msgNoData2 : String := "Žádná data pro zadané období/košík."

def msgDone : String := "Hotovo."

def histogramOutDir (workDir : List Char) : List Char :=
  pathJoin workDir "img/histogram".toList

def histogramOutPath (workDir pid : List Char) : List Char :=
  pathJoin (histogramOutDir workDir) (fnameFor pid)

/-- histogram.py after loading the configuration: an empty frame returns
with a message; otherwise one histogram image per group whose cleaned
(rounded, missing-dropped) price list is nonempty. -/
def histogramMain (workDir : List Char) (gs : List ProductGroup) : Outcome :=
  if gs.isEmpty then ⟨0, [], [], [msgNoData2]⟩
  else
    ⟨0, [histogramOutDir workDir],
      gs.filterMap (fun g =>
        if ((g.rows.map (fun r => round2 r.price)).reduceOption).isEmpty then none
        else some (histogramOutPath workDir g.pid)),
      [msgDone]⟩

def plotCenovyDir (workDir : List Char) : List Char :=
  pathJoin workDir "img/cenovy_odstup_b".toList

def plotCenovyOutPath (workDir pid : List Char) : List Char :=
  pathJoin (plotCenovyDir workDir) (fnameFor pid)

/-- plot_cenovy_odstup_b.py after loading the configuration. -/
def plotCenovyMain (workDir : List Char) (gs : List ProductGroup) : Outcome :=
  if gs.isEmpty then ⟨0, [], [], [msgNoData]⟩
  else
    ⟨0, [plotCenovyDir workDir],
      gs.filterMap (fun g =>
        if g.rows.isEmpty then none else some (plotCenovyOutPath workDir g.pid)),
      [msgDone]⟩

def scatterNPDir (workDir : List Char) : List Char :=
  pathJoin workDir "img/scatterplot_iP_Np".toList

def scatterNPOutPath (workDir pid : List Char) : List Char :=
  pathJoin (scatterNPDir workDir) (fnameFor pid)

/-- plot_for_each_product of scatterplot_nP_iB.py decides per group: only an
empty group is skipped; every other group gets an OLS fit and a saved
image, whatever the variation of the explanatory variable. -/
def scatterNPGroupFile (workDir : List Char) (g : ProductGroup) : Option (List Char) :=
  if g.rows.isEmpty then none else some (scatterNPOutPath workDir g.pid)

/-- scatterplot_nP_iB.py after loading the configuration. -/
def scatterNPMain (workDir : List Char) (gs : List ProductGroup) : Outcome :=
  if gs.isEmpty then ⟨0, [], [], [msgNoData]⟩
  else
    ⟨0, [scatterNPDir workDir], gs.filterMap (scatterNPGroupFile workDir), [msgDone]⟩

def souladnostDir (workDir : List Char) : List Char :=
  pathJoin workDir "img/souladnost_cenovych_odstupu".toList

def souladnostOutPath (workDir pid : List Char) : List Char :=
  pathJoin (souladnostDir workDir) (fnameFor pid)

/-- plot_for_each_product of souladnost_cenovych_odstupu.py: the same shape,
an OLS of dA on dB is fitted for every nonempty group and the image always
saved. -/
def souladnostGroupFile (workDir : List Char) (g : ProductGroup) : Option (List Char) :=
  if g.rows.isEmpty then none else some (souladnostOutPath workDir g.pid)

/-- souladnost_cenovych_odstupu.py after loading the configuration. -/
def souladnostMain (workDir : List Char) (gs : List ProductGroup) : Outcome :=
  if gs.isEmpty then ⟨0, [], [], [msgNoData]⟩
  else
    ⟨0, [souladnostDir workDir], gs.filterMap (souladnostGroupFile workDir), [msgDone]⟩

def plotBrandOutPath (workDir : List Char) : List Char :=
  pathJoin workDir "img/brand_index_sladeni.png".toList

/-- plot_brand_index_sladeni.py after loading the configuration: one single
image for the whole frame. -/
def plotBrandMain (workDir : List Char) (rows : List PriceRow) : Outcome :=
  if rows.isEmpty then ⟨0, [], [], [msgNoData]⟩
  else ⟨0, [pathJoin workDir "img".toList], [plotBrandOutPath workDir], [msgDone]⟩

/-- OUTPUT_DIR of scatterplot_sladenost_cenovy_odstup_b.py, a module-level
constant relative to the process working directory; it is never joined with
work_dir. -/
def scatterSladenostDir : List Char :=
  "img/scatterplot_sladenost_cenovy_odstup_b".toList

def scatterSladenostOutPath (pid : List Char) : List Char :=
  pathJoin scatterSladenostDir (fnameFor pid)

/-- scatterplot_sladenost_cenovy_odstup_b.py after loading the
configuration: a group is skipped when empty or when the computed min/mode
column is entirely missing. -/
def scatterSladenostMain (gs : List ProductGroup) : Outcome :=
  if gs.isEmpty then ⟨0, [], [], [msgNoData]⟩
  else
    ⟨0, [scatterSladenostDir],
      gs.filterMap (fun g =>
        if g.rows.isEmpty then none
        else if ((g.rows.map (fun r =>
            minModeFrac r.min_price r.mode_price)).reduceOption).isEmpty then none
        else some (scatterSladenostOutPath g.pid)),
      [msgDone]⟩

/-- export_to_csv.py after loading the configuration: the CSV file is opened
and the header written whether or not the query returned rows. -/
def exportCsvMain (_rows : List (List String)) : Outcome :=
  ⟨0, [], [ "data.csv".toList], ["OK: exported"]⟩

/-! ## The JSON document model and the regression merge -/

inductive J where
  | jnull
  | jbool (b : Bool)
  | jnum (q : ℚ)
  | jstr (s : String)
  | jarr (items : List J)
  | jobj (fields : List (String × J))

mutual

/-- Structural equality of JSON values, the equality Python dict lookup
uses for the identifiers involved here. -/
def jeq : J → J → Bool
  | .jnull, .jnull => true
  | .jbool a, .jbool b => a == b
  | .jnum a, .jnum b => a == b
  | .jstr a, .jstr b => a == b
  | .jarr a, .jarr b => jeqArr a b
  | .jobj a, .jobj b => jeqObj a b
  | _, _ => false

def jeqArr : List J → List J → Bool
  | [], [] => true
  | a :: as, b :: bs => jeq a b && jeqArr as bs
  | _, _ => false

def jeqObj : List (String × J) → List (String × J) → Bool
  | [], [] => true
  | (k₁, v₁) :: as, (k₂, v₂) :: bs => k₁ == k₂ && jeq v₁ v₂ && jeqObj as bs
  | _, _ => false

end

/-- Key lookup in a JSON object (Python dict indexing; parsed JSON objects
have distinct keys, so the first match is the binding). -/
def lookupKey (fields : List (String × J)) (k : String) : Option J :=
  (fields.find? (fun kv => kv.1 == k)).map (fun kv => kv.2)

/-- Python dict assignment d[k] = v: replace the value of an existing key in
place, else append the binding at the end. -/
def setKey (fields : List (String × J)) (k : String) (v : J) : List (String × J) :=
  if fields.any (fun kv => kv.1 == k) then
    fields.map (fun kv => if kv.1 == k then (k, v) else kv)
  else fields ++ [(k, v)]

/-- results_by_id.get: the dict comprehension keeps the last binding of a
duplicated id, .get returns it or None. -/
def resultsLookup (results : List (J × J)) (idv : J) : Option J :=
  (results.reverse.find? (fun p => jeq p.1 idv)).map (fun p => p.2)

/-- One iteration of the merge loop of regression_iP_Np.py main: a product
entry that is not an object, or has no id key, crashes the run (none);
otherwise reg1 is injected exactly when the id has a computed result. -/
def mergeProduct (results : List (J × J)) : J → Option J
  | .jobj pf =>
    match lookupKey pf "id" with
    | none => none
    | some idv =>
      match resultsLookup results idv with
      | none => some (.jobj pf)
      | some reg => some (.jobj (setKey pf "reg1" reg))
  | _ => none

/-- The merge loop over the products list; a crash anywhere aborts the whole
run before the document is rewritten. -/
def mapOpt (f : J → Option J) : List J → Option (List J)
  | [] => some []
  | x :: xs =>
    match f x, mapOpt f xs with
    | some y, some ys => some (y :: ys)
    | _, _ => none

/-- The whole document rewrite of regression_iP_Np.py main: mutate the
entries of the products list in place, leave every other key untouched,
and serialize the document back.  A document without a products list (or
with a non-list products value) crashes before any write. -/
def mergeDoc (doc : J) (results : List (J × J)) : Option J :=
  match doc with
  | .jobj fields =>
    match lookupKey fields "products" with
    | some (.jarr items) =>
      (mapOpt (mergeProduct results) items).map (fun items2 =>
        .jobj (fields.map (fun kv =>
          if kv.1 == "products" then (kv.1, .jarr items2) else kv)))
    | _ => none
  | _ => none

def optJ : Option ℚ → J
  | none => J.jnull
  | some q => J.jnum q

/-- The result record as the JSON object injected under reg1. -/
def regToJ (r : RegRecord) : J :=
  J.jobj [("id", J.jstr (String.mk r.id)), ("beta_Np", optJ r.beta_Np),
    ("beta_SE", optJ r.beta_SE), ("p_value", optJ r.p_value),
    ("R_squared", optJ r.R_squared), ("N", J.jnum r.N)]

def regressionResultsJ (m : NumLib) (gs : List ProductGroup) : List (J × J) :=
  (linear_regression m gs).map (fun r => (J.jstr (String.mk r.id), regToJ r))

/-- regression_iP_Np.py after loading the configuration: an empty frame
returns with a message and no write; otherwise the document is merged and
rewritten in place, or the run dies on a malformed document. -/
def regressionMain (m : NumLib) (workDir : List Char) (doc : J)
    (gs : List ProductGroup) : Outcome :=
  if gs.isEmpty then ⟨0, [], [], [msgNoData]⟩
  else
    match mergeDoc doc (regressionResultsJ m gs) with
    | some _ => ⟨0, [], [pathJoin workDir "data.json".toList], [msgDone]⟩
    | none => ⟨1, [], [], []⟩

/-! ## Startup and fatal errors -/

/-- The argument and configuration checks shared by every script: a wrong
argument count, then a missing data.json, each print a message and exit 1;
both run before anything is written. -/
def startupFatal (argc : ℕ) (dataJsonExists : Bool) : Option String :=
  if argc ≠ 2 then some "Chybí parametr <work_dir>"
  else if dataJsonExists = false then some "Chyba: Soubor neexistuje."
  else none

/-- The three direct key accesses of fetch_dataframe in histogram.py:
cur.execute(SQL, (data["dateFrom"], data["dateTo"], data["basketId"])).
Each missing key raises an uncaught KeyError there. -/
def histConfigOk (fields : List (String × J)) : Bool :=
  (lookupKey fields "dateFrom").isSome &&
  (lookupKey fields "dateTo").isSome &&
  (lookupKey fields "basketId").isSome

/-- Python + on JSON values, as used by sum.py: numbers (and booleans,
which count as integers) add, strings and lists concatenate, every other
combination raises TypeError. -/
def jtoNum : J → Option ℚ
  | J.jnum q => some q
  | J.jbool b => some (if b then 1 else 0)
  | _ => none

def jadd (x y : J) : Option J :=
  match x, y with
  | J.jstr a, J.jstr b => some (J.jstr (a ++ b))
  | J.jarr a, J.jarr b => some (J.jarr (a ++ b))
  | _, _ =>
    match jtoNum x, jtoNum y with
    | some a, some b => some (J.jnum (a + b))
    | _, _ => none

/-- histogram.py as invoked: startup checks, then the key accesses of the
fetch stage (a missing dateFrom/dateTo/basketId key raises an uncaught
KeyError: traceback, exit code 1, no clean message, no files), then the
pipeline. -/
def histogramRun (workDir : List Char) (argc : ℕ) (dataJsonExists : Bool)
    (fields : List (String × J)) (gs : List ProductGroup) : Outcome :=
  match startupFatal argc dataJsonExists with
  | some msg => ⟨1, [], [], [msg]⟩
  | none =>
    if histConfigOk fields then histogramMain workDir gs
    else ⟨1, [], [], []⟩

/-- sum.py as invoked: startup checks, then a = data.get("a", 0),
b = data.get("b", 0) and a + b; an unaddable pair raises an uncaught
TypeError (exit code 1, no files), otherwise data.json is rewritten with
the a_plus_b field added. -/
def sumRun (workDir : List Char) (argc : ℕ) (dataJsonExists : Bool)
    (fields : List (String × J)) : Outcome :=
  match startupFatal argc dataJsonExists with
  | some msg => ⟨1, [], [], [msg]⟩
  | none =>
    match jadd ((lookupKey fields "a").getD (J.jnum 0))
        ((lookupKey fields "b").getD (J.jnum 0)) with
    | some _ => ⟨0, [], [pathJoin workDir "data.json".toList], [msgDone]⟩
    | none => ⟨1, [], [], []⟩

/-! ## The database resource discipline -/

inductive DbEv where
  | connOpen
  | curOpen
  | runQuery
  | fetchAll
  | csvOut
  | curClose
  | connClose
deriving DecidableEq

/-- fetch_dataframe (histogram.py and the other chart scripts): connect,
open a cursor, execute the one parameterized query, fetch all rows, close
the cursor, close the connection; only then is the frame built, so the
close events precede the return on the empty path too. -/
def fetch_dataframe (rows : List PriceRow) : List DbEv × List PriceRow :=
  ([DbEv.connOpen, DbEv.curOpen, DbEv.runQuery, DbEv.fetchAll,
    DbEv.curClose, DbEv.connClose], rows)

/-- export_to_csv.py main: the same discipline with try/finally, the CSV
written between the fetch and the closes. -/
def exportCsvTrace (_rows : List (List String)) : List DbEv :=
  [DbEv.connOpen, DbEv.curOpen, DbEv.runQuery, DbEv.fetchAll,
    DbEv.csvOut, DbEv.curClose, DbEv.connClose]

structure DbState where
  conn : Bool
  cur : Bool
deriving DecidableEq

/-- The legality of one resource event in a state; none is a protocol
violation (use after close, double open, double close). -/
def dbStep (s : DbState) : DbEv → Option DbState
  | .connOpen => if s.conn then none else some ⟨true, s.cur⟩
  | .curOpen => if s.conn && !s.cur then some ⟨s.conn, true⟩ else none
  | .runQuery => if s.cur then some s else none
  | .fetchAll => if s.cur then some s else none
  | .csvOut => some s
  | .curClose => if s.cur then some ⟨s.conn, false⟩ else none
  | .connClose => if s.conn then some ⟨false, s.cur⟩ else none

/-- Run a trace from the closed state. -/
def dbRun (evs : List DbEv) : Option DbState := evs.foldlM dbStep ⟨false, false⟩

/-! ## Concrete fixtures used by witnesses and counterexamples -/

/-- A group whose explanatory variable has a single distinct value. -/
def grpLowVar : ProductGroup :=
  ⟨"42".toList, "p".toList,
    [{ seller_count := some 3, iB := some 1 }, { seller_count := some 3, iB := some 2 }]⟩

def docFields0 : List (String × J) :=
  [("basketId", J.jnum 1), ("dateFrom", J.jstr "2024-01-01"),
   ("products", J.jarr
     [J.jobj [("id", J.jnum 42), ("name", J.jstr "A")],
      J.jobj [("id", J.jnum 7)]])]

def items0 : List J :=
  [J.jobj [("id", J.jnum 42), ("name", J.jstr "A")], J.jobj [("id", J.jnum 7)]]

def reg0 : J := J.jobj [("id", J.jnum 42), ("beta_Np", J.jnum 0)]

def results0 : List (J × J) := [(J.jnum 42, reg0)]

def items20 : List J :=
  [J.jobj [("id", J.jnum 42), ("name", J.jstr "A"), ("reg1", reg0)],
   J.jobj [("id", J.jnum 7)]]

def merged0 : List (String × J) :=
  [("basketId", J.jnum 1), ("dateFrom", J.jstr "2024-01-01"),
   ("products", J.jarr items20)]

section SubRunsLemmas

variable {p : Char → Bool} {r : Char}

theorem subRuns_eq_self : ∀ (l : List Char) (b : Bool),
    (∀ c ∈ l, p c = false) → subRuns p r b l = l := by
  intro l
  induction l with
  | nil => intro b _; rfl
  | cons c cs ih =>
    intro b h
    have hc : p c = false := h c (List.mem_cons_self c cs)
    have hcs : ∀ x ∈ cs, p x = false := fun x hx => h x (List.mem_cons_of_mem c hx)
    simp [subRuns, hc, ih false hcs]

theorem mem_subRuns : ∀ (l : List Char) (b : Bool) (c : Char),
    c ∈ subRuns p r b l → c = r ∨ (c ∈ l ∧ p c = false) := by
  intro l
  induction l with
  | nil => intro b c h; simp [subRuns] at h
  | cons d ds ih =>
    intro b c h
    by_cases hd : p d = true
    · simp only [subRuns, hd, if_true] at h
      cases b with
      | true =>
        rcases ih true c h with h1 | h2
        · exact Or.inl h1
        · exact Or.inr ⟨List.mem_cons_of_mem d h2.1, h2.2⟩
      | false =>
        rcases List.mem_cons.1 h with h1 | h1
        · exact Or.inl h1
        · rcases ih true c h1 with h2 | h2
          · exact Or.inl h2
          · exact Or.inr ⟨List.mem_cons_of_mem d h2.1, h2.2⟩
    · have hd' : p d = false := by
        cases hpd : p d with
        | true => exact absurd hpd hd
        | false => rfl
      simp only [subRuns, hd', Bool.false_eq_true, if_false] at h
      rcases List.mem_cons.1 h with h1 | h1
      · subst h1; exact Or.inr ⟨List.mem_cons_self c ds, hd'⟩
      · rcases ih false c h1 with h2 | h2
        · exact Or.inl h2
        · exact Or.inr ⟨List.mem_cons_of_mem d h2.1, h2.2⟩

theorem subRuns_true_head : ∀ (l : List Char) (c : Char),
    (subRuns p r true l).head? = some c → p c = false := by
  intro l
  induction l with
  | nil => intro c h; simp [subRuns] at h
  | cons d ds ih =>
    intro c h
    by_cases hd : p d = true
    · simp only [subRuns, hd, if_true] at h
      exact ih c h
    · have hd' : p d = false := by
        cases hpd : p d with
        | true => exact absurd hpd hd
        | false => rfl
      simp only [subRuns, hd', Bool.false_eq_true, if_false, List.head?_cons] at h
      cases h; exact hd'

theorem subRuns_true_eq_false (l : List Char)
    (h : ∀ c ∈ l.head?, p c = false) :
    subRuns p r true l = subRuns p r false l := by
  cases l with
  | nil => rfl
  | cons c cs =>
    have hc : p c = false := h c (by simp)
    simp [subRuns, hc]

end SubRunsLemmas

/-- Composing the two regex passes of sanitize_filename is the single pass on
the union class: the pass collapsing whitespace runs applied after the pass
collapsing unsafe runs equals one pass collapsing runs of either. -/
theorem subRuns_compose : ∀ l : List Char,
    (∀ b : Bool, subRuns wsChar ' ' true (subRuns badChar ' ' b l) =
      subRuns (fun c => badChar c || wsChar c) ' ' true l) ∧
    subRuns wsChar ' ' false (subRuns badChar ' ' false l) =
      subRuns (fun c => badChar c || wsChar c) ' ' false l := by
  intro l
  induction l with
  | nil => exact ⟨fun b => by cases b <;> rfl, rfl⟩
  | cons c cs ih =>
    constructor
    · intro b
      by_cases hb : badChar c = true
      · cases b with
        | true =>
          simp only [subRuns, hb, if_true, Bool.true_or]
          exact ih.1 true
        | false =>
          simp only [subRuns, hb, if_true, Bool.true_or]
          have hw : wsChar ' ' = true := by decide
          simp only [subRuns, hw, if_true]
          exact ih.1 true
      · have hb' : badChar c = false := by
          cases h : badChar c with
          | true => exact absurd h hb
          | false => rfl
        by_cases hw : wsChar c = true
        · simp only [subRuns, hb', Bool.false_eq_true, if_false, hw, if_true,
            Bool.false_or]
          exact ih.1 false
        · have hw' : wsChar c = false := by
            cases h : wsChar c with
            | true => exact absurd h hw
            | false => rfl
          simp only [subRuns, hb', Bool.false_eq_true, if_false, hw',
            Bool.false_or]
          exact congrArg (c :: ·) ih.2
    · by_cases hb : badChar c = true
      · have hw : wsChar ' ' = true := by decide
        simp only [subRuns, hb, if_true, Bool.true_or, hw]
        exact congrArg (' ' :: ·) (ih.1 true)
      · have hb' : badChar c = false := by
          cases h : badChar c with
          | true => exact absurd h hb
          | false => rfl
        by_cases hw : wsChar c = true
        · simp only [subRuns, hb', Bool.false_eq_true, if_false, hw, if_true,
            Bool.false_or]
          exact congrArg (' ' :: ·) (ih.1 false)
        · have hw' : wsChar c = false := by
            cases h : wsChar c with
            | true => exact absurd h hw
            | false => rfl
          simp only [subRuns, hb', Bool.false_eq_true, if_false, hw',
            Bool.false_or]
          exact congrArg (c :: ·) ih.2


theorem dropWhile_head_false {p : Char → Bool} : ∀ (l : List Char) (c : Char),
    (l.dropWhile p).head? = some c → p c = false := by
  intro l
  induction l with
  | nil => intro c h; simp at h
  | cons d ds ih =>
    intro c h
    by_cases hd : p d = true
    · rw [List.dropWhile_cons_of_pos hd] at h
      exact ih c h
    · have hd' : p d = false := by
        cases hpd : p d with
        | true => exact absurd hpd hd
        | false => rfl
      rw [List.dropWhile_cons_of_neg (by simp [hd'])] at h
      simp at h
      exact h ▸ hd'

theorem dropWhile_eq_self_of_head {p : Char → Bool} (l : List Char)
    (h : ∀ c ∈ l.head?, p c = false) : l.dropWhile p = l := by
  cases l with
  | nil => rfl
  | cons c cs =>
    have hc : p c = false := h c (by simp)
    exact List.dropWhile_cons_of_neg (by simp [hc])

theorem dropWhile_is_suffix {p : Char → Bool} : ∀ l : List Char,
    ∃ s, l = s ++ l.dropWhile p := by
  intro l
  induction l with
  | nil => exact ⟨[], rfl⟩
  | cons c cs ih =>
    by_cases hc : p c = true
    · rcases ih with ⟨s, hs⟩
      exact ⟨c :: s, by rw [List.dropWhile_cons_of_pos hc]; simpa using hs⟩
    · have hc' : p c = false := by
        cases hpc : p c with
        | true => exact absurd hpc hc
        | false => rfl
      exact ⟨[], by rw [List.dropWhile_cons_of_neg (by simp [hc'])]; rfl⟩

/-- The stripped list is an infix of the original. -/
theorem stripWs_is_infix (l : List Char) :
    ∃ s₁ s₂, l = s₁ ++ stripWs l ++ s₂ := by
  rcases dropWhile_is_suffix (p := wsChar) l with ⟨s₁, h₁⟩
  rcases dropWhile_is_suffix (p := wsChar) (l.dropWhile wsChar).reverse with ⟨s₂, h₂⟩
  refine ⟨s₁, s₂.reverse, ?_⟩
  have : l.dropWhile wsChar = stripWs l ++ s₂.reverse := by
    unfold stripWs
    calc l.dropWhile wsChar = (l.dropWhile wsChar).reverse.reverse := by
          rw [List.reverse_reverse]
      _ = (s₂ ++ (l.dropWhile wsChar).reverse.dropWhile wsChar).reverse := by rw [← h₂]
      _ = ((l.dropWhile wsChar).reverse.dropWhile wsChar).reverse ++ s₂.reverse := by
          rw [List.reverse_append]
  conv_lhs => rw [h₁, this]
  rw [List.append_assoc]

theorem stripWs_head (l : List Char) (c : Char)
    (h : (stripWs l).head? = some c) : wsChar c = false := by
  rcases dropWhile_is_suffix (p := wsChar) (l.dropWhile wsChar).reverse with ⟨s₂, h₂⟩
  have hdec : l.dropWhile wsChar = stripWs l ++ s₂.reverse := by
    unfold stripWs
    calc l.dropWhile wsChar = (l.dropWhile wsChar).reverse.reverse := by
          rw [List.reverse_reverse]
      _ = (s₂ ++ (l.dropWhile wsChar).reverse.dropWhile wsChar).reverse := by rw [← h₂]
      _ = ((l.dropWhile wsChar).reverse.dropWhile wsChar).reverse ++ s₂.reverse := by
          rw [List.reverse_append]
  have hh : (l.dropWhile wsChar).head? = some c := by
    rw [hdec, List.head?_append, h]; rfl
  exact dropWhile_head_false l c hh

theorem stripWs_getLast (l : List Char) (c : Char)
    (h : (stripWs l).getLast? = some c) : wsChar c = false := by
  unfold stripWs at h
  rw [List.getLast?_reverse] at h
  exact dropWhile_head_false (l.dropWhile wsChar).reverse c h

theorem mem_stripWs (l : List Char) (c : Char) (h : c ∈ stripWs l) : c ∈ l := by
  rcases stripWs_is_infix l with ⟨s₁, s₂, hl⟩
  rw [hl]
  exact List.mem_append_left _ (List.mem_append_right _ h)

/-- The whitespace-collapsing pass never leaves two adjacent whitespace
characters. -/
theorem chain'_subRuns_ws : ∀ (l : List Char) (b : Bool),
    List.Chain' (fun a c => ¬(wsChar a = true ∧ wsChar c = true))
      (subRuns wsChar ' ' b l) := by
  intro l
  induction l with
  | nil => intro b; simp [subRuns]
  | cons c cs ih =>
    intro b
    by_cases hc : wsChar c = true
    · cases b with
      | true =>
        simp only [subRuns, hc, if_true]
        exact ih true
      | false =>
        simp only [subRuns, hc, if_true]
        refine List.chain'_cons'.2 ⟨?_, ih true⟩
        intro y hy
        have : wsChar y = false := subRuns_true_head cs y hy
        simp [this]
    · have hc' : wsChar c = false := by
        cases h : wsChar c with
        | true => exact absurd h hc
        | false => rfl
      simp only [subRuns, hc', Bool.false_eq_true, if_false]
      refine List.chain'_cons'.2 ⟨?_, ih false⟩
      intro y hy
      simp [hc']

/-- A list whose whitespace characters are isolated single spaces is a fixed
point of the whitespace-collapsing pass. -/
theorem subRuns_ws_eq_self : ∀ l : List Char,
    List.Chain' (fun a c => ¬(wsChar a = true ∧ wsChar c = true)) l →
    (∀ c ∈ l, wsChar c = true → c = ' ') →
    subRuns wsChar ' ' false l = l := by
  intro l
  induction l with
  | nil => intro _ _; rfl
  | cons c cs ih =>
    intro hch hsp
    rcases List.chain'_cons'.1 hch with ⟨hhd, htl⟩
    by_cases hc : wsChar c = true
    · have hcsp : c = ' ' := hsp c (List.mem_cons_self c cs) hc
      have hhead : ∀ d ∈ cs.head?, wsChar d = false := by
        intro d hd
        have := hhd d hd
        cases hwd : wsChar d with
        | true => exact absurd ⟨hc, hwd⟩ this
        | false => rfl
      have hstep : subRuns wsChar ' ' false (c :: cs) =
          ' ' :: subRuns wsChar ' ' true cs := by
        simp [subRuns, hc]
      rw [hstep, subRuns_true_eq_false cs hhead,
        ih htl (fun d hd => hsp d (List.mem_cons_of_mem c hd)), hcsp]
    · have hc' : wsChar c = false := by
        cases h : wsChar c with
        | true => exact absurd h hc
        | false => rfl
      simp only [subRuns, hc', Bool.false_eq_true, if_false]
      rw [ih htl (fun d hd => hsp d (List.mem_cons_of_mem c hd))]

/-- C7: in every chart script the rendered output filename is a function of
the product identifier alone, namely sanitize_filename(str(product_id)) +
".png", and sanitize_filename coincides with the single-pass specification
that collapses every run of the characters backslash / : * ? quote < > |
and every run of whitespace to one space and trims the ends; rerunning with
identical input therefore produces the identical filename. -/
theorem c7_filename_function_of_id (l pid : List Char) :
    sanitize_filename l = collapseUnsafeRuns l ∧
    fnameFor pid = collapseUnsafeRuns pid ++ ".png".toList := by
  constructor
  · unfold sanitize_filename collapseUnsafeRuns
    rw [(subRuns_compose l).2]
  · unfold fnameFor sanitize_filename collapseUnsafeRuns
    rw [(subRuns_compose pid).2]

/-- C10: sanitize_filename is idempotent, and its output contains no
filesystem-unsafe character, never two adjacent whitespace characters, and
no leading or trailing whitespace. -/
theorem c10_sanitize_filename_idempotent (l : List Char) :
    sanitize_filename (sanitize_filename l) = sanitize_filename l ∧
    (∀ c ∈ sanitize_filename l, badChar c = false) ∧
    List.Chain' (fun a c => ¬(wsChar a = true ∧ wsChar c = true))
      (sanitize_filename l) ∧
    (∀ c, (sanitize_filename l).head? = some c → wsChar c = false) ∧
    (∀ c, (sanitize_filename l).getLast? = some c → wsChar c = false) := by
  have hmem2 : ∀ c ∈ sanitize_filename l,
      c = ' ' ∨ wsChar c = false := by
    intro c hc
    have := mem_stripWs _ c hc
    rcases mem_subRuns _ _ c this with h | h
    · exact Or.inl h
    · exact Or.inr h.2
  have hnobad : ∀ c ∈ sanitize_filename l, badChar c = false := by
    intro c hc
    have hc2 := mem_stripWs _ c hc
    rcases mem_subRuns _ _ c hc2 with h | h
    · rw [h]; decide
    · rcases mem_subRuns _ _ c h.1 with h' | h'
      · rw [h']; decide
      · exact h'.2
  have hchain : List.Chain' (fun a c => ¬(wsChar a = true ∧ wsChar c = true))
      (sanitize_filename l) := by
    rcases stripWs_is_infix (subRuns wsChar ' ' false (subRuns badChar ' ' false l))
      with ⟨s₁, s₂, hinf⟩
    have hbig := chain'_subRuns_ws (subRuns badChar ' ' false l) false
    rw [hinf] at hbig
    exact hbig.infix ⟨s₁, s₂, rfl⟩
  have hhd : ∀ c, (sanitize_filename l).head? = some c → wsChar c = false :=
    fun c h => stripWs_head _ c h
  have hlast : ∀ c, (sanitize_filename l).getLast? = some c → wsChar c = false :=
    fun c h => stripWs_getLast _ c h
  refine ⟨?_, hnobad, hchain, hhd, hlast⟩
  have hsp : ∀ c ∈ sanitize_filename l, wsChar c = true → c = ' ' := by
    intro c hc hw
    rcases hmem2 c hc with h | h
    · exact h
    · rw [hw] at h; cases h
  show stripWs (subRuns wsChar ' ' false
      (subRuns badChar ' ' false (sanitize_filename l))) = sanitize_filename l
  rw [subRuns_eq_self (sanitize_filename l) false
    (fun c hc => hnobad c hc)]
  rw [subRuns_ws_eq_self (sanitize_filename l) hchain hsp]
  have h1 : (sanitize_filename l).dropWhile wsChar = sanitize_filename l :=
    dropWhile_eq_self_of_head _ (fun c hc => hhd c hc)
  unfold stripWs
  rw [h1]
  have h2 : (sanitize_filename l).reverse.dropWhile wsChar =
      (sanitize_filename l).reverse := by
    refine dropWhile_eq_self_of_head _ ?_
    intro c hc
    rw [List.head?_reverse] at hc
    exact hlast c hc
  rw [h2, List.reverse_reverse]


/-! ## Supporting lemmas for the regression claims -/

theorem n_none_or_round (v : Option ℚ) :
    n v = none ∨ ∃ q, n v = some (roundTo 4 q) := by
  cases v with
  | none => exact Or.inl rfl
  | some q => exact Or.inr ⟨q, rfl⟩

theorem roundTo_zero (d : ℕ) : roundTo d 0 = 0 := by
  norm_num [roundTo, rhe]

theorem sxx_nil : sxx [] = 0 := rfl

theorem mean_replicate (k : ℕ) (c : ℚ) (hk : k ≠ 0) :
    mean (List.replicate k c) = c := by
  unfold mean
  rw [List.sum_replicate, List.length_replicate, nsmul_eq_mul]
  exact mul_div_cancel_left₀ c (Nat.cast_ne_zero.mpr hk)

theorem sum_zipWith_eq_zero {f : ℚ → ℚ → ℚ} (c : ℚ) (hf : ∀ a, f a c = 0) :
    ∀ (x : List ℚ) (k : ℕ), (List.zipWith f x (List.replicate k c)).sum = 0 := by
  intro x
  induction x with
  | nil => intro k; simp
  | cons a xs ih =>
    intro k
    cases k with
    | zero => simp
    | succ kk => simp [List.replicate_succ, hf a, ih kk]

theorem reduceOption_map_some (x : List ℚ) : (x.map some).reduceOption = x := by
  induction x with
  | nil => rfl
  | cons a xs ih => simp [List.reduceOption, ih]

theorem reduceOption_replicate_some (k : ℕ) (c : ℚ) :
    (List.replicate k (some c)).reduceOption = List.replicate k c := by
  induction k with
  | zero => rfl
  | succ kk ih => simp [List.replicate_succ, List.reduceOption, ih]

/-- OLS on a constant response: the slope is exactly zero, while the
R-squared and the p-value are non-finite. -/
theorem ols_const_response (m : NumLib) (x : List ℚ) (c : ℚ)
    (hsxx : sxx x ≠ 0) :
    olsSlope x (List.replicate x.length c) = some 0 ∧
    olsRsquared x (List.replicate x.length c) = none ∧
    olsPval m x (List.replicate x.length c) = none := by
  have hx : x ≠ [] := by
    intro h
    exact hsxx (h ▸ sxx_nil)
  have hk : x.length ≠ 0 := fun h => hx (List.length_eq_zero.mp h)
  have hy : mean (List.replicate x.length c) = c := mean_replicate _ _ hk
  have hsxy : sxy x (List.replicate x.length c) = 0 := by
    unfold sxy
    simp only [hy]
    exact sum_zipWith_eq_zero c (fun a => by ring) x x.length
  have hslope : olsSlope x (List.replicate x.length c) = some 0 := by
    unfold olsSlope
    rw [if_neg hsxx, hsxy, zero_div]
  have hssr : olsSsr x (List.replicate x.length c) = some 0 := by
    unfold olsSsr
    rw [hslope]
    simp only [Option.map_some', hy]
    have := sum_zipWith_eq_zero (f := fun xi yi => (yi - ((c - 0 * mean x) + 0 * xi)) ^ 2)
      c (fun a => by ring) x x.length
    rw [this]
  have hsst : olsSst (List.replicate x.length c) = 0 := by
    unfold olsSst
    simp [hy, List.map_replicate, List.sum_replicate]
  have hrsq : olsRsquared x (List.replicate x.length c) = none := by
    unfold olsRsquared
    rw [hssr, hsst]
    simp [pdiv, psub]
  have hpval : olsPval m x (List.replicate x.length c) = none := by
    have hscale : olsScale x (List.replicate x.length c) =
        pdiv (some 0) (some ((x.length : ℚ) - 2)) := by
      unfold olsScale
      rw [hssr, List.length_replicate]
    by_cases hdf : ((x.length : ℚ) - 2) = 0
    · have hbse : olsBse m x (List.replicate x.length c) = none := by
        unfold olsBse
        rw [hscale, hdf]
        simp [pdiv]
      unfold olsPval olsTval
      rw [hbse]
      simp [pdiv]
    · have hbse : olsBse m x (List.replicate x.length c) = some 0 := by
        unfold olsBse
        rw [hscale]
        simp only [pdiv, if_neg hdf, zero_div, if_neg hsxx]
        norm_num
      unfold olsPval olsTval
      rw [hbse, hslope]
      simp [pdiv]
  exact ⟨hslope, hrsq, hpval⟩

/-- C1 counterexample: a group whose regression response has no variation
(response list constant, explanatory values with nonzero spread) is
reported with slope 0.0, not with an absent slope; R squared and the
p-value are absent as claimed. -/
theorem c1_slope_reported_zero :
    sxx [(0 : ℚ), 1] ≠ 0 ∧
    [some (0 : ℚ), some 1] = [(0 : ℚ), 1].map some ∧
    [some (0 : ℚ), some 0] = List.replicate [(0 : ℚ), 1].length (some (0 : ℚ)) ∧
    (olsRecOf mlib0 ['4', '2'] 2 [some 0, some 1] [some 0, some 0]).beta_Np = some 0 ∧
    (olsRecOf mlib0 ['4', '2'] 2 [some 0, some 1] [some 0, some 0]).beta_Np ≠ none ∧
    (olsRecOf mlib0 ['4', '2'] 2 [some 0, some 1] [some 0, some 0]).R_squared = none ∧
    (olsRecOf mlib0 ['4', '2'] 2 [some 0, some 1] [some 0, some 0]).p_value = none := by
  have hsxx : sxx [(0 : ℚ), 1] ≠ 0 := by norm_num [sxx, mean]
  have h := ols_const_response mlib0 [(0 : ℚ), 1] 0 hsxx
  have hbeta : (olsRecOf mlib0 ['4', '2'] 2
      [some 0, some 1] [some 0, some 0]).beta_Np = some 0 := by
    show n (olsSlope [(0 : ℚ), 1] (List.replicate [(0 : ℚ), 1].length 0)) = some 0
    rw [h.1]
    simp [n, roundTo_zero]
  have hrsq : (olsRecOf mlib0 ['4', '2'] 2
      [some 0, some 1] [some 0, some 0]).R_squared = none := by
    show n (olsRsquared [(0 : ℚ), 1] (List.replicate [(0 : ℚ), 1].length 0)) = none
    rw [h.2.1]; rfl
  have hp : (olsRecOf mlib0 ['4', '2'] 2
      [some 0, some 1] [some 0, some 0]).p_value = none := by
    show n (olsPval mlib0 [(0 : ℚ), 1] (List.replicate [(0 : ℚ), 1].length 0)) = none
    rw [h.2.2]; rfl
  refine ⟨hsxx, rfl, rfl, hbeta, ?_, hrsq, hp⟩
  rw [hbeta]
  simp

/-- C1 as amended: every reported statistic of a regression record is either
the missing marker None or a finite value rounded to 4 decimal places
(None, NaN and infinite raw values all become None before serialization);
and when the response variable has no variation, R squared and the p-value
are reported as absent while the slope is reported as 0.0, not as absent. -/
theorem c1_sanitized_reporting :
    (∀ (m : NumLib) (pid : List Char) (k : ℕ) (xs ys : List (Option ℚ)),
      ((olsRecOf m pid k xs ys).beta_Np = none ∨
        ∃ q, (olsRecOf m pid k xs ys).beta_Np = some (roundTo 4 q)) ∧
      ((olsRecOf m pid k xs ys).beta_SE = none ∨
        ∃ q, (olsRecOf m pid k xs ys).beta_SE = some (roundTo 4 q)) ∧
      ((olsRecOf m pid k xs ys).p_value = none ∨
        ∃ q, (olsRecOf m pid k xs ys).p_value = some (roundTo 4 q)) ∧
      ((olsRecOf m pid k xs ys).R_squared = none ∨
        ∃ q, (olsRecOf m pid k xs ys).R_squared = some (roundTo 4 q))) ∧
    (∀ (m : NumLib) (pid : List Char) (k : ℕ) (x : List ℚ) (c : ℚ),
      sxx x ≠ 0 →
      (olsRecOf m pid k (x.map some)
        (List.replicate x.length (some c))).beta_Np = some 0 ∧
      (olsRecOf m pid k (x.map some)
        (List.replicate x.length (some c))).R_squared = none ∧
      (olsRecOf m pid k (x.map some)
        (List.replicate x.length (some c))).p_value = none) := by
  constructor
  · intro m pid k xs ys
    unfold olsRecOf
    split
    · exact ⟨n_none_or_round _, n_none_or_round _, n_none_or_round _,
        n_none_or_round _⟩
    · exact ⟨Or.inl rfl, Or.inl rfl, Or.inl rfl, Or.inl rfl⟩
  · intro m pid k x c hsxx
    have hg1 : allSome (x.map some) = true := by
      apply List.all_eq_true.mpr
      intro a ha
      rcases List.mem_map.1 ha with ⟨b, _, hb⟩
      rw [← hb]; rfl
    have hg2 : allSome (List.replicate x.length (some c)) = true := by
      apply List.all_eq_true.mpr
      intro a ha
      rw [List.eq_of_mem_replicate ha]; rfl
    have hgate : (allSome (x.map some) &&
        allSome (List.replicate x.length (some c))) = true := by
      rw [hg1, hg2]; rfl
    rcases ols_const_response m x c hsxx with ⟨h1, h2, h3⟩
    unfold olsRecOf
    rw [if_pos hgate]
    simp only [reduceOption_map_some, reduceOption_replicate_some]
    refine ⟨?_, ?_, ?_⟩
    · show n (olsSlope x (List.replicate x.length c)) = some 0
      rw [h1]
      simp [n, roundTo_zero]
    · show n (olsRsquared x (List.replicate x.length c)) = none
      rw [h2]; rfl
    · show n (olsPval m x (List.replicate x.length c)) = none
      rw [h3]; rfl

/-- Witness: the amended C1 theorem applied to the concrete no-variation
group of the counterexample. -/
theorem c1_sanitized_reporting_witness :
    sxx [(0 : ℚ), 1] ≠ 0 ∧
    (olsRecOf mlib0 ['4', '2'] 2 ([(0 : ℚ), 1].map some)
      (List.replicate [(0 : ℚ), 1].length (some (0 : ℚ)))).beta_Np = some 0 ∧
    (olsRecOf mlib0 ['4', '2'] 2 ([(0 : ℚ), 1].map some)
      (List.replicate [(0 : ℚ), 1].length (some (0 : ℚ)))).R_squared = none ∧
    (olsRecOf mlib0 ['4', '2'] 2 ([(0 : ℚ), 1].map some)
      (List.replicate [(0 : ℚ), 1].length (some (0 : ℚ)))).p_value = none := by
  have hsxx : sxx [(0 : ℚ), 1] ≠ 0 := by norm_num [sxx, mean]
  have h := c1_sanitized_reporting.2 mlib0 ['4', '2'] 2 [(0 : ℚ), 1] 0 hsxx
  exact ⟨hsxx, h.1, h.2.1, h.2.2⟩

/-- C2 counterexample: a group whose explanatory variable has a single
distinct value is nevertheless processed (an image is emitted) by the two
scatter scripts that fit an OLS regression per group; only the regression
script skips it. -/
theorem c2_low_variation_not_skipped :
    nuniqueQ (grpLowVar.rows.map (fun r => r.seller_count)) < 2 ∧
    scatterNPGroupFile ['/', 'w'] grpLowVar ≠ none ∧
    souladnostGroupFile ['/', 'w'] grpLowVar ≠ none := by
  refine ⟨by decide, ?_, ?_⟩ <;> decide

/-- C2 as amended: in the regression script regression_iP_Np.py every group
whose explanatory variable has fewer than two distinct values is skipped
and no regression result is emitted for it; the claim does not extend to
the other scripts that fit an OLS regression. -/
theorem c2_regression_skips_low_variation (m : NumLib) (g : ProductGroup)
    (h : nuniqueQ (g.rows.map (fun r => r.seller_count)) < 2) :
    regressionGroupResult m g = none := by
  unfold regressionGroupResult
  rw [if_pos (Or.inr h)]

/-- Witness for the amended C2 theorem at the concrete low-variation
group. -/
theorem c2_regression_skips_low_variation_witness :
    nuniqueQ (grpLowVar.rows.map (fun r => r.seller_count)) < 2 ∧
    regressionGroupResult mlib0 grpLowVar = none :=
  ⟨by decide, c2_regression_skips_low_variation mlib0 grpLowVar (by decide)⟩

/-- C3 counterexample: on an empty query result the CSV export still opens
the output file and writes the header row, so a file is written even
though the script exits 0. -/
theorem c3_export_writes_header_on_empty :
    (exportCsvMain []).files ≠ [] ∧ (exportCsvMain []).exitCode = 0 := by
  constructor
  · decide
  · rfl

/-- C3 as amended: on an empty query result every script prints a message
and returns cleanly with exit status 0; the chart scripts and the
regression script write no output files, but export_to_csv.py still writes
the header-only CSV file. -/
theorem c3_empty_result_outcomes (workDir : List Char) (m : NumLib) (doc : J) :
    histogramMain workDir [] = ⟨0, [], [], [msgNoData2]⟩ ∧
    plotCenovyMain workDir [] = ⟨0, [], [], [msgNoData]⟩ ∧
    scatterNPMain workDir [] = ⟨0, [], [], [msgNoData]⟩ ∧
    souladnostMain workDir [] = ⟨0, [], [], [msgNoData]⟩ ∧
    plotBrandMain workDir [] = ⟨0, [], [], [msgNoData]⟩ ∧
    scatterSladenostMain [] = ⟨0, [], [], [msgNoData]⟩ ∧
    regressionMain m workDir doc [] = ⟨0, [], [], [msgNoData]⟩ ∧
    (exportCsvMain []).exitCode = 0 ∧ (exportCsvMain []).msgs ≠ [] ∧
    (exportCsvMain []).files = [ "data.csv".toList] :=
  ⟨rfl, rfl, rfl, rfl, rfl, rfl, rfl, rfl, by decide, rfl⟩

/-- C5 counterexample: with a correct argument count and an existing
data.json, a configuration lacking the required date and basket keys makes
histogram.py die on an uncaught KeyError with exit code 1, sum.py dies on
an uncaught TypeError for unaddable a/b values, and regression_iP_Np.py
dies on a document without a products list - fatal exits beyond the two
categories the claim allows. -/
theorem c5_uncaught_config_error :
    ¬((2 : ℕ) ≠ 2 ∨ true = false) ∧
    (histogramRun [] 2 true [("histBins", J.jnum 30)] []).exitCode = 1 ∧
    (histogramRun [] 2 true [("histBins", J.jnum 30)] []).files = [] ∧
    (histogramRun [] 2 true [("histBins", J.jnum 30)] []).msgs = [] ∧
    (sumRun [] 2 true [("a", J.jstr "x"), ("b", J.jnum 1)]).exitCode = 1 ∧
    (regressionMain mlib0 [] (J.jobj []) [grpLowVar]).exitCode = 1 := by
  refine ⟨by decide, ?_, ?_, ?_, ?_, ?_⟩ <;> rfl

/-- C5 as amended: a wrong argument count or a missing data.json each print
a message and exit 1 before any file is created, and these are the only
handled fatal exits; but they are not the only fatal categories: a
configuration without the dateFrom/dateTo/basketId keys (histogram.py) or
with unaddable a/b values (sum.py) raises an uncaught exception that also
terminates with exit code 1, with a traceback instead of a clean message
and still with no files created.  The run exits 1 exactly on these
conditions. -/
theorem c5_fatal_exits (workDir : List Char) (argc : ℕ) (ex : Bool)
    (fields : List (String × J)) (gs : List ProductGroup) :
    ((argc ≠ 2 ∨ ex = false) →
      (histogramRun workDir argc ex fields gs).exitCode = 1 ∧
      (histogramRun workDir argc ex fields gs).files = [] ∧
      (histogramRun workDir argc ex fields gs).dirsMade = [] ∧
      (histogramRun workDir argc ex fields gs).msgs ≠ [] ∧
      (sumRun workDir argc ex fields).exitCode = 1 ∧
      (sumRun workDir argc ex fields).files = [] ∧
      (sumRun workDir argc ex fields).msgs ≠ []) ∧
    ((histogramRun workDir argc ex fields gs).exitCode = 1 ↔
      (argc ≠ 2 ∨ ex = false ∨ histConfigOk fields = false)) ∧
    ((histogramRun workDir argc ex fields gs).exitCode = 1 →
      (histogramRun workDir argc ex fields gs).files = []) ∧
    ((sumRun workDir argc ex fields).exitCode = 1 ↔
      (argc ≠ 2 ∨ ex = false ∨
        jadd ((lookupKey fields "a").getD (J.jnum 0))
          ((lookupKey fields "b").getD (J.jnum 0)) = none)) ∧
    ((sumRun workDir argc ex fields).exitCode = 1 →
      (sumRun workDir argc ex fields).files = []) := by
  have hm : (histogramMain workDir gs).exitCode = 0 := by
    unfold histogramMain
    split <;> rfl
  cases hs : startupFatal argc ex with
  | some msg =>
    have hcond : argc ≠ 2 ∨ ex = false := by
      by_contra hc
      push_neg at hc
      unfold startupFatal at hs
      simp [hc.1, hc.2] at hs
    refine ⟨?_, ?_, ?_, ?_, ?_⟩ <;>
      simp [histogramRun, sumRun, hs, hcond] <;>
      rcases hcond with h | h <;> simp [h]
  | none =>
    have hae : argc = 2 ∧ ex = true := by
      unfold startupFatal at hs
      by_cases h1 : argc = 2
      · cases ex with
        | true => exact ⟨h1, rfl⟩
        | false =>
          rw [if_neg (by simp [h1]), if_pos rfl] at hs
          cases hs
      · rw [if_pos h1] at hs
        cases hs
    obtain ⟨ha, he⟩ := hae
    subst ha
    subst he
    cases hc : histConfigOk fields with
    | true =>
      cases hj : jadd ((lookupKey fields "a").getD (J.jnum 0))
          ((lookupKey fields "b").getD (J.jnum 0)) with
      | some v =>
        refine ⟨?_, ?_, ?_, ?_, ?_⟩ <;>
          simp [histogramRun, sumRun, startupFatal, hc, hj, hm]
      | none =>
        refine ⟨?_, ?_, ?_, ?_, ?_⟩ <;>
          simp [histogramRun, sumRun, startupFatal, hc, hj, hm]
    | false =>
      cases hj : jadd ((lookupKey fields "a").getD (J.jnum 0))
          ((lookupKey fields "b").getD (J.jnum 0)) with
      | some v =>
        refine ⟨?_, ?_, ?_, ?_, ?_⟩ <;>
          simp [histogramRun, sumRun, startupFatal, hc, hj]
      | none =>
        refine ⟨?_, ?_, ?_, ?_, ?_⟩ <;>
          simp [histogramRun, sumRun, startupFatal, hc, hj]

/-- Witness: the amended C5 theorem at a missing argument, at a missing
data.json, and at an existing but incomplete configuration. -/
theorem c5_fatal_exits_witness :
    (histogramRun [] 1 true [] []).exitCode = 1 ∧
    (histogramRun [] 1 true [] []).files = [] ∧
    (histogramRun [] 1 true [] []).msgs ≠ [] ∧
    (sumRun [] 2 false []).exitCode = 1 ∧
    (sumRun [] 2 false []).files = [] ∧
    (histogramRun [] 2 true [] []).exitCode = 1 ∧
    (histogramRun [] 2 true [] []).files = [] := by
  have h1 := c5_fatal_exits [] 1 true [] []
  have h2 := c5_fatal_exits [] 2 false [] []
  have h3 := c5_fatal_exits [] 2 true [] []
  have e1 := h1.1 (Or.inl (by decide))
  have e2 := h2.1 (Or.inr rfl)
  have e3 : (histogramRun [] 2 true [] []).exitCode = 1 :=
    h3.2.1.mpr (Or.inr (Or.inr rfl))
  exact ⟨e1.1, e1.2.1, e1.2.2.2.1, e2.2.2.2.2.1, e2.2.2.2.2.2.1, e3,
    h3.2.2.1 e3⟩

/-- C6: a price row whose ratio denominator is missing or zero gets a
missing ratio value, and no division is attempted. -/
theorem c6_ratio_denominator_guard (minP modeP : Option ℚ)
    (h : modeP = none ∨ modeP = some 0) : minModeFrac minP modeP = none := by
  rcases h with h | h <;> subst h <;> cases minP <;> simp [minModeFrac]

/-- Witness: the C6 theorem at a zero and at a missing denominator. -/
theorem c6_ratio_denominator_guard_witness :
    minModeFrac (some 5) (some 0) = none ∧ minModeFrac (some 5) none = none :=
  ⟨c6_ratio_denominator_guard (some 5) (some 0) (Or.inr rfl),
   c6_ratio_denominator_guard (some 5) none (Or.inl rfl)⟩

/-- C8 counterexample: the scatterplot_sladenost_cenovy_odstup_b.py output
path is relative to the process working directory and is not under the
supplied work_dir. -/
theorem c8_sladenost_not_under_work_dir :
    scatterSladenostOutPath ['4', '2'] =
      "img/scatterplot_sladenost_cenovy_odstup_b/42.png".toList ∧
    (scatterSladenostOutPath ['4', '2']).take (['/', 'w'].length) ≠ ['/', 'w'] := by
  constructor <;> decide

/-- C8 as amended: histogram.py, plot_cenovy_odstup_b.py,
scatterplot_nP_iB.py and souladnost_cenovych_odstupu.py write each product
image under work_dir, in a fixed per-script img subdirectory (whose name
does not always match the script name), with the sanitized product id as
file name; plot_brand_index_sladeni.py writes a single image under
work_dir/img; scatterplot_sladenost_cenovy_odstup_b.py writes under a
process-relative img directory, not under work_dir. -/
theorem c8_output_paths (workDir pid : List Char) :
    histogramOutPath workDir pid =
      workDir ++ '/' :: "img/histogram".toList ++ '/' :: fnameFor pid ∧
    plotCenovyOutPath workDir pid =
      workDir ++ '/' :: "img/cenovy_odstup_b".toList ++ '/' :: fnameFor pid ∧
    scatterNPOutPath workDir pid =
      workDir ++ '/' :: "img/scatterplot_iP_Np".toList ++ '/' :: fnameFor pid ∧
    souladnostOutPath workDir pid =
      workDir ++ '/' :: "img/souladnost_cenovych_odstupu".toList ++
        '/' :: fnameFor pid ∧
    plotBrandOutPath workDir = workDir ++ '/' :: "img/brand_index_sladeni.png".toList ∧
    scatterSladenostOutPath pid =
      "img/scatterplot_sladenost_cenovy_odstup_b".toList ++ '/' :: fnameFor pid ∧
    (scatterSladenostOutPath pid).take 3 = "img".toList := by
  refine ⟨?_, ?_, ?_, ?_, ?_, ?_, ?_⟩ <;>
    simp [histogramOutPath, histogramOutDir, plotCenovyOutPath, plotCenovyDir,
      scatterNPOutPath, scatterNPDir, souladnostOutPath, souladnostDir,
      plotBrandOutPath, scatterSladenostOutPath, scatterSladenostDir, pathJoin,
      List.append_assoc]

/-- C9: the fetch stage opens one connection, runs one query, and closes
cursor and connection exactly once each, ending with both released, for
every result set including the empty one; export_to_csv.py obeys the same
discipline with the CSV written before the closes. -/
theorem c9_resource_discipline (rows : List PriceRow)
    (rows2 : List (List String)) :
    dbRun (fetch_dataframe rows).1 = some ⟨false, false⟩ ∧
    (fetch_dataframe rows).1.count DbEv.connOpen = 1 ∧
    (fetch_dataframe rows).1.count DbEv.runQuery = 1 ∧
    (fetch_dataframe rows).1.count DbEv.curClose = 1 ∧
    (fetch_dataframe rows).1.count DbEv.connClose = 1 ∧
    dbRun (exportCsvTrace rows2) = some ⟨false, false⟩ ∧
    (exportCsvTrace rows2).count DbEv.connOpen = 1 ∧
    (exportCsvTrace rows2).count DbEv.runQuery = 1 ∧
    (exportCsvTrace rows2).count DbEv.curClose = 1 ∧
    (exportCsvTrace rows2).count DbEv.connClose = 1 :=
  ⟨rfl, rfl, rfl, rfl, rfl, rfl, rfl, rfl, rfl, rfl⟩


/-! ## The document merge of regression_iP_Np.py (C4) -/

theorem mapOpt_forall₂ (f : J → Option J) : ∀ (l l2 : List J),
    mapOpt f l = some l2 → List.Forall₂ (fun a b => f a = some b) l l2 := by
  intro l
  induction l with
  | nil =>
    intro l2 h
    cases h
    exact List.Forall₂.nil
  | cons a asx ih =>
    intro l2 h
    unfold mapOpt at h
    cases hfa : f a with
    | none => rw [hfa] at h; cases h
    | some y =>
      rw [hfa] at h
      cases hmo : mapOpt f asx with
      | none => rw [hmo] at h; cases h
      | some ys =>
        rw [hmo] at h
        cases h
        exact List.Forall₂.cons hfa (ih ys hmo)

theorem lookupKey_cons (kv : String × J) (rest : List (String × J)) (k : String) :
    lookupKey (kv :: rest) k =
      if (kv.1 == k) = true then some kv.2 else lookupKey rest k := by
  by_cases hpa : (kv.1 == k) = true <;> simp [lookupKey, List.find?_cons, hpa]

theorem lookupKey_map_replace (fields : List (String × J)) (v newv : J)
    (h : lookupKey fields "products" = some v) :
    lookupKey (fields.map (fun kv =>
      if kv.1 == "products" then (kv.1, newv) else kv)) "products" = some newv := by
  induction fields with
  | nil => simp [lookupKey] at h
  | cons kv rest ih =>
    simp only [List.map_cons]
    by_cases hk : (kv.1 == "products") = true
    · rw [if_pos hk, lookupKey_cons, if_pos hk]
    · rw [if_neg hk, lookupKey_cons, if_neg hk]
      rw [lookupKey_cons, if_neg hk] at h
      exact ih h

/-- C4: when the regression script rewrites the configuration document, the
products entries whose id has a computed result get a reg1 object injected
(overwriting an existing reg1 binding, every other binding of the entry
kept in place), entries without a matching result are kept unchanged, and
every other key of the document is preserved at its position. -/
theorem c4_merge_frame (results : List (J × J)) (fields : List (String × J))
    (items : List J) (merged : List (String × J))
    (hp : lookupKey fields "products" = some (J.jarr items))
    (hm : mergeDoc (J.jobj fields) results = some (J.jobj merged)) :
    merged.length = fields.length ∧
    (∀ (i : ℕ) (hi : i < fields.length) (hi2 : i < merged.length),
      (fields.get ⟨i, hi⟩).1 ≠ "products" →
      merged.get ⟨i, hi2⟩ = fields.get ⟨i, hi⟩) ∧
    (∀ kv ∈ fields, kv.1 ≠ "products" → kv ∈ merged) ∧
    ∃ items2, mapOpt (mergeProduct results) items = some items2 ∧
      lookupKey merged "products" = some (J.jarr items2) ∧
      List.Forall₂ (fun p q =>
        ∀ pf, p = J.jobj pf →
          ∃ idv, lookupKey pf "id" = some idv ∧
            (resultsLookup results idv = none → q = p) ∧
            (∀ reg, resultsLookup results idv = some reg →
              q = J.jobj (setKey pf "reg1" reg))) items items2 := by
  simp only [mergeDoc, hp] at hm
  cases hmo : mapOpt (mergeProduct results) items with
  | none => rw [hmo] at hm; simp at hm
  | some items2 =>
    rw [hmo] at hm
    simp only [Option.map_some', Option.some.injEq, J.jobj.injEq] at hm
    subst hm
    refine ⟨by simp, ?_, ?_, items2, rfl, ?_, ?_⟩
    · intro i hi hi2 hne
      simp only [List.get_eq_getElem, List.getElem_map]
      have hb : ((fields.get ⟨i, hi⟩).1 == "products") = false := by
        simpa using hne
      simp only [List.get_eq_getElem] at hb
      simp [hb]
    · intro kv hkv hne
      refine List.mem_map.2 ⟨kv, hkv, ?_⟩
      have hb : (kv.1 == "products") = false := by simpa using hne
      simp [hb]
    · exact lookupKey_map_replace fields (J.jarr items) (J.jarr items2) hp
    · refine (mapOpt_forall₂ (mergeProduct results) items items2 hmo).imp ?_
      intro a b hab pf hpf
      subst hpf
      simp only [mergeProduct] at hab
      cases hid : lookupKey pf "id" with
      | none => rw [hid] at hab; simp at hab
      | some idv =>
        rw [hid] at hab
        have hab2 : (match resultsLookup results idv with
            | none => some (J.jobj pf)
            | some reg => some (J.jobj (setKey pf "reg1" reg))) = some b := hab
        refine ⟨idv, rfl, ?_, ?_⟩
        · intro hres
          rw [hres] at hab2
          simp only [Option.some.injEq] at hab2
          exact hab2.symm
        · intro reg hres
          rw [hres] at hab2
          simp only [Option.some.injEq] at hab2
          exact hab2.symm

/-- Witness: the C4 theorem at a concrete document with one matched and one
unmatched product entry. -/
theorem c4_merge_frame_witness :
    mergeDoc (J.jobj docFields0) results0 = some (J.jobj merged0) ∧
    merged0.length = docFields0.length ∧
    (∀ kv ∈ docFields0, kv.1 ≠ "products" → kv ∈ merged0) := by
  have hp : lookupKey docFields0 "products" = some (J.jarr items0) := rfl
  have hm : mergeDoc (J.jobj docFields0) results0 = some (J.jobj merged0) := rfl
  have h := c4_merge_frame results0 docFields0 items0 merged0 hp hm
  exact ⟨hm, h.1, h.2.2.1⟩

end Measure
